import Mathlib

/-!
Shallow embedding of `storage/backup/backup-cli/src/metadata/mod.rs`:
the backup metadata record model, the compaction/continuity engine,
the naming templates and the serialization round-trip contract.

`u64` values are embedded as `Nat`; the arithmetic in the compaction
functions (`x + 1`, `x - 1`) never underflows on the values the code
computes, so plain `Nat` arithmetic coincides with the machine
arithmetic away from the 2^64 overflow corner, which is treated
separately by the checked-arithmetic model below.
-/

/-- `FileHandle` - opaque manifest handle, an equality-comparable token. -/
abbrev FileHandle := String

/-- `Version` - ledger version, a u64. -/
abbrev Version := Nat

/-- `HashValue` - an opaque 256-bit value; only carried, never computed on. -/
abbrev HashValue := Nat

structure EpochEndingBackupMeta where
  first_epoch : Nat
  last_epoch : Nat
  first_version : Version
  last_version : Version
  manifest : FileHandle
  deriving DecidableEq, Repr

structure EpochEndingBackupMetaRange where
  first_epoch : Nat
  last_epoch : Nat
  first_version : Version
  last_version : Version
  backup_metas : List EpochEndingBackupMeta
  deriving DecidableEq, Repr

structure StateSnapshotBackupMeta where
  epoch : Nat
  version : Version
  manifest : FileHandle
  deriving DecidableEq, Repr

structure StateSnapshotBackupMetaRange where
  first_epoch : Nat
  last_epoch : Nat
  first_version : Version
  last_version : Version
  backup_metas : List StateSnapshotBackupMeta
  deriving DecidableEq, Repr

structure TransactionBackupMeta where
  first_version : Version
  last_version : Version
  manifest : FileHandle
  deriving DecidableEq, Repr

structure TransactionBackupMetaRange where
  first_version : Version
  last_version : Version
  backup_metas : List TransactionBackupMeta
  deriving DecidableEq, Repr

structure IdentityMeta where
  id : HashValue
  deriving DecidableEq, Repr

/-- The closed variant set of persisted records. -/
inductive Metadata where
  | EpochEndingBackup (m : EpochEndingBackupMeta)
  | EpochEndingBackupRange (m : EpochEndingBackupMetaRange)
  | StateSnapshotBackup (m : StateSnapshotBackupMeta)
  | StateSnapshotBackupRange (m : StateSnapshotBackupMetaRange)
  | TransactionBackup (m : TransactionBackupMeta)
  | TransactionBackupRange (m : TransactionBackupMetaRange)
  | Identity (m : IdentityMeta)
  deriving DecidableEq, Repr

/-- Errors produced by the `ensure!` macro calls in the compaction
functions: an empty-input rejection carrying the literal message, or a
discontinuity carrying the literal format template together with the
expected and actual coordinate values interpolated into it. -/
inductive CompactionError where
  | emptyInput (msg : String)
  | notContinuous (msg : String) (expected : Nat) (actual : Nat)
  deriving DecidableEq, Repr

def emptyMsg : String := "compacting an empty metadata vector"

def epochEndingDiscontMsg : String :=
  "Epoch ending backup ranges is not continuous expecting epoch \x7b\x7d, got \x7b\x7d."

def snapshotEpochDiscontMsg : String :=
  "state backup ranges is not continuous expecting epoch \x7b\x7d, got \x7b\x7d."

def snapshotVersionDiscontMsg : String :=
  "state backup ranges is not continuous expecting version \x7b\x7d, got \x7b\x7d."

def txnDiscontMsg : String :=
  "txn backup ranges is not continuous expecting version \x7b\x7d, got \x7b\x7d."

/-- The `for backup in backup_metas.iter().skip(1)` loop of
`new_epoch_ending_backup_range`, carrying the mutable
`next_epoch`/`next_version` state. -/
def epochEndingLoop (next_epoch next_version : Nat) :
    List EpochEndingBackupMeta → Except CompactionError (Nat × Nat)
  | [] => .ok (next_epoch, next_version)
  | backup :: rest =>
    if next_epoch = backup.first_epoch then
      epochEndingLoop (backup.last_epoch + 1) backup.last_version rest
    else
      .error (.notContinuous epochEndingDiscontMsg next_epoch backup.first_epoch)

def Metadata.new_epoch_ending_backup_range
    (backup_metas : List EpochEndingBackupMeta) : Except CompactionError Metadata :=
  match backup_metas with
  | [] => .error (.emptyInput emptyMsg)
  | backup_meta :: rest =>
    match epochEndingLoop (backup_meta.last_epoch + 1) backup_meta.last_version rest with
    | .error e => .error e
    | .ok (next_epoch, next_version) =>
      .ok (.EpochEndingBackupRange
        { first_epoch := backup_meta.first_epoch
          last_epoch := next_epoch - 1
          first_version := backup_meta.first_version
          last_version := next_version
          backup_metas := backup_meta :: rest })

/-- The member loop of `new_statesnapshot_backup_range`: epoch continuity
is checked before version continuity at each member. -/
def stateSnapshotLoop (next_epoch next_version : Nat) :
    List StateSnapshotBackupMeta → Except CompactionError (Nat × Nat)
  | [] => .ok (next_epoch, next_version)
  | backup :: rest =>
    if next_epoch = backup.epoch then
      if next_version = backup.version then
        stateSnapshotLoop (backup.epoch + 1) (backup.version + 1) rest
      else
        .error (.notContinuous snapshotVersionDiscontMsg next_version backup.version)
    else
      .error (.notContinuous snapshotEpochDiscontMsg next_epoch backup.epoch)

def Metadata.new_statesnapshot_backup_range
    (backup_metas : List StateSnapshotBackupMeta) : Except CompactionError Metadata :=
  match backup_metas with
  | [] => .error (.emptyInput emptyMsg)
  | backup_meta :: rest =>
    match stateSnapshotLoop (backup_meta.epoch + 1) (backup_meta.version + 1) rest with
    | .error e => .error e
    | .ok (next_epoch, next_version) =>
      .ok (.StateSnapshotBackupRange
        { first_epoch := backup_meta.epoch
          last_epoch := next_epoch - 1
          first_version := backup_meta.version
          last_version := next_version - 1
          backup_metas := backup_meta :: rest })

/-- The member loop of `new_transaction_backup_range`. -/
def transactionLoop (next_version : Nat) :
    List TransactionBackupMeta → Except CompactionError Nat
  | [] => .ok next_version
  | backup :: rest =>
    if next_version = backup.first_version then
      transactionLoop (backup.last_version + 1) rest
    else
      .error (.notContinuous txnDiscontMsg next_version backup.first_version)

def Metadata.new_transaction_backup_range
    (backup_metas : List TransactionBackupMeta) : Except CompactionError Metadata :=
  match backup_metas with
  | [] => .error (.emptyInput emptyMsg)
  | backup_meta :: rest =>
    match transactionLoop (backup_meta.last_version + 1) rest with
    | .error e => .error e
    | .ok next_version =>
      .ok (.TransactionBackupRange
        { first_version := backup_meta.first_version
          last_version := next_version - 1
          backup_metas := backup_meta :: rest })

def Metadata.new_epoch_ending_backup (first_epoch last_epoch : Nat)
    (first_version last_version : Version) (manifest : FileHandle) : Metadata :=
  .EpochEndingBackup
    { first_epoch, last_epoch, first_version, last_version, manifest }

def Metadata.new_state_snapshot_backup (epoch : Nat) (version : Version)
    (manifest : FileHandle) : Metadata :=
  .StateSnapshotBackup { epoch, version, manifest }

def Metadata.new_transaction_backup (first_version last_version : Version)
    (manifest : FileHandle) : Metadata :=
  .TransactionBackup { first_version, last_version, manifest }

/-- The last member of a non-empty list `a :: l`. -/
def lastOf {α : Type} (a : α) : List α → α
  | [] => a
  | b :: l => lastOf b l

/-- Epoch-ending continuity of adjacent members. -/
def epochContinuous (a b : EpochEndingBackupMeta) : Prop :=
  a.last_epoch + 1 = b.first_epoch

/-- Snapshot continuity of adjacent members: both axes advance by one. -/
def snapshotContinuous (a b : StateSnapshotBackupMeta) : Prop :=
  a.epoch + 1 = b.epoch ∧ a.version + 1 = b.version

/-- Transaction continuity of adjacent members. -/
def txnContinuous (a b : TransactionBackupMeta) : Prop :=
  a.last_version + 1 = b.first_version

instance : DecidableRel epochContinuous := fun a b =>
  inferInstanceAs (Decidable (a.last_epoch + 1 = b.first_epoch))

instance : DecidableRel snapshotContinuous := fun a b =>
  inferInstanceAs (Decidable (a.epoch + 1 = b.epoch ∧ a.version + 1 = b.version))

instance : DecidableRel txnContinuous := fun a b =>
  inferInstanceAs (Decidable (a.last_version + 1 = b.first_version))

/-- Modelled from the spec: the spec fixes overflow of the u64
"next expected" computation `previous + 1` as a hard failure rather than
silent wraparound (the build configuration that selects the concrete Rust
overflow behavior is not part of these sources). `checkedAdd1 n` is
`n + 1` failing when the u64 addition would overflow, i.e. when
`n = 2^64 - 1`. -/
def checkedAdd1 (n : Nat) : Option Nat :=
  if n + 1 < 2 ^ 64 then some (n + 1) else none

/-- The member loop of `new_epoch_ending_backup_range` under checked u64
arithmetic; `none` is the hard failure of an overflowing `+ 1`. -/
def checkedEpochEndingLoop (next_epoch next_version : Nat) :
    List EpochEndingBackupMeta → Option (Except CompactionError (Nat × Nat))
  | [] => some (.ok (next_epoch, next_version))
  | backup :: rest =>
    if next_epoch = backup.first_epoch then
      match checkedAdd1 backup.last_epoch with
      | none => none
      | some ne2 => checkedEpochEndingLoop ne2 backup.last_version rest
    else
      some (.error (.notContinuous epochEndingDiscontMsg next_epoch backup.first_epoch))

/-- `new_epoch_ending_backup_range` under checked u64 arithmetic. -/
def checked_new_epoch_ending_backup_range
    (backup_metas : List EpochEndingBackupMeta) :
    Option (Except CompactionError Metadata) :=
  match backup_metas with
  | [] => some (.error (.emptyInput emptyMsg))
  | backup_meta :: rest =>
    match checkedAdd1 backup_meta.last_epoch with
    | none => none
    | some ne =>
      match checkedEpochEndingLoop ne backup_meta.last_version rest with
      | none => none
      | some (.error e) => some (.error e)
      | some (.ok (next_epoch, next_version)) =>
        some (.ok (.EpochEndingBackupRange
          { first_epoch := backup_meta.first_epoch
            last_epoch := next_epoch - 1
            first_version := backup_meta.first_version
            last_version := next_version
            backup_metas := backup_meta :: rest }))

/-- The member loop of `new_statesnapshot_backup_range` under checked u64
arithmetic, preserving the order of operations in the source: epoch check,
epoch advance, version check, version advance. -/
def checkedStateSnapshotLoop (next_epoch next_version : Nat) :
    List StateSnapshotBackupMeta → Option (Except CompactionError (Nat × Nat))
  | [] => some (.ok (next_epoch, next_version))
  | backup :: rest =>
    if next_epoch = backup.epoch then
      match checkedAdd1 backup.epoch with
      | none => none
      | some ne2 =>
        if next_version = backup.version then
          match checkedAdd1 backup.version with
          | none => none
          | some nv2 => checkedStateSnapshotLoop ne2 nv2 rest
        else
          some (.error (.notContinuous snapshotVersionDiscontMsg next_version backup.version))
    else
      some (.error (.notContinuous snapshotEpochDiscontMsg next_epoch backup.epoch))

/-- `new_statesnapshot_backup_range` under checked u64 arithmetic. -/
def checked_new_statesnapshot_backup_range
    (backup_metas : List StateSnapshotBackupMeta) :
    Option (Except CompactionError Metadata) :=
  match backup_metas with
  | [] => some (.error (.emptyInput emptyMsg))
  | backup_meta :: rest =>
    match checkedAdd1 backup_meta.epoch with
    | none => none
    | some ne =>
      match checkedAdd1 backup_meta.version with
      | none => none
      | some nv =>
        match checkedStateSnapshotLoop ne nv rest with
        | none => none
        | some (.error e) => some (.error e)
        | some (.ok (next_epoch, next_version)) =>
          some (.ok (.StateSnapshotBackupRange
            { first_epoch := backup_meta.epoch
              last_epoch := next_epoch - 1
              first_version := backup_meta.version
              last_version := next_version - 1
              backup_metas := backup_meta :: rest }))

/-- The member loop of `new_transaction_backup_range` under checked u64
arithmetic. -/
def checkedTransactionLoop (next_version : Nat) :
    List TransactionBackupMeta → Option (Except CompactionError Nat)
  | [] => some (.ok next_version)
  | backup :: rest =>
    if next_version = backup.first_version then
      match checkedAdd1 backup.last_version with
      | none => none
      | some nv2 => checkedTransactionLoop nv2 rest
    else
      some (.error (.notContinuous txnDiscontMsg next_version backup.first_version))

/-- `new_transaction_backup_range` under checked u64 arithmetic. -/
def checked_new_transaction_backup_range
    (backup_metas : List TransactionBackupMeta) :
    Option (Except CompactionError Metadata) :=
  match backup_metas with
  | [] => some (.error (.emptyInput emptyMsg))
  | backup_meta :: rest =>
    match checkedAdd1 backup_meta.last_version with
    | none => none
    | some nv =>
      match checkedTransactionLoop nv rest with
      | none => none
      | some (.error e) => some (.error e)
      | some (.ok next_version) =>
        some (.ok (.TransactionBackupRange
          { first_version := backup_meta.first_version
            last_version := next_version - 1
            backup_metas := backup_meta :: rest }))

/-- The decimal digit character for a single digit value. -/
def decDigit : Nat → Char
  | 0 => '0'
  | 1 => '1'
  | 2 => '2'
  | 3 => '3'
  | 4 => '4'
  | 5 => '5'
  | 6 => '6'
  | 7 => '7'
  | 8 => '8'
  | _ => '9'

/-- Fuel-driven core of decimal formatting: emits the digits of `n` in
front of `acc`, least significant digit pushed first. -/
def natToDecCore : Nat → Nat → List Char → List Char
  | 0, _, acc => acc
  | fuel + 1, n, acc =>
    if n < 10 then decDigit (n % 10) :: acc
    else natToDecCore fuel (n / 10) (decDigit (n % 10) :: acc)

/-- Decimal rendering of an unsigned integer, as the naming templates
interpolate their u64 coordinates. -/
def natToDec (n : Nat) : String := ⟨natToDecCore (n + 1) n []⟩

/-- `Metadata::name`: the fixed kind-specific naming templates with
decimal coordinate substitutions. -/
def Metadata.name : Metadata → String
  | .EpochEndingBackup e =>
    "epoch_ending_" ++ natToDec e.first_epoch ++ "-" ++ natToDec e.last_epoch ++ ".meta"
  | .StateSnapshotBackup s =>
    "state_snapshot_ver_" ++ natToDec s.version ++ ".meta"
  | .TransactionBackup t =>
    "transaction_" ++ natToDec t.first_version ++ "-" ++ natToDec t.last_version ++ ".meta"
  | .EpochEndingBackupRange e =>
    "epoch_ending_compacted_" ++ natToDec e.first_epoch ++ "-" ++
      natToDec e.last_epoch ++ ".meta"
  | .StateSnapshotBackupRange e =>
    "state_snapshot_compacted_ver_" ++ natToDec e.first_version ++ "-" ++
      natToDec e.last_version ++ ".meta"
  | .TransactionBackupRange e =>
    "transaction_compacted_" ++ natToDec e.first_version ++ "-" ++
      natToDec e.last_version ++ ".meta"
  | .Identity _ => "identity.meta"

/-- Modelled from the spec: the shell-safe-name constraint supplied by
the storage collaborator (its validator is not part of these sources) —
a name is non-empty and contains no control characters, path separators
or shell metacharacters; conservatively, every character must be
alphanumeric or one of the period, underscore and hyphen characters. -/
def shellSafeChar (c : Char) : Bool :=
  c.isAlphanum || c == '.' || c == '_' || c == '-'

/-- Modelled from the spec: the shell-safe-name validator, see
shellSafeChar. -/
def shellSafe (s : String) : Bool :=
  !s.data.isEmpty && s.data.all shellSafeChar

/-- Model of the trailing `.try_into().unwrap()` in `name()`: the generated
name is handed to the shell-safety validator, and a validation failure is
a fatal invariant violation (`none`). -/
def Metadata.name_checked (m : Metadata) : Option String :=
  if shellSafe (Metadata.name m) then some (Metadata.name m) else none

/-- Modelled from the spec: the structured, tagged, lossless text
representation produced by the line serializer (the generic structured
encoder and the derived per-type implementations live outside these
sources): a tree of numbers, strings, arrays and keyed objects. -/
inductive JVal where
  | num (n : Nat)
  | str (s : String)
  | arr (l : List JVal)
  | obj (fields : List (String × JVal))

def encEpochEndingMeta (e : EpochEndingBackupMeta) : JVal :=
  .obj [("first_epoch", .num e.first_epoch), ("last_epoch", .num e.last_epoch),
        ("first_version", .num e.first_version), ("last_version", .num e.last_version),
        ("manifest", .str e.manifest)]

def decEpochEndingMeta : JVal → Option EpochEndingBackupMeta
  | .obj [("first_epoch", .num fe), ("last_epoch", .num le),
          ("first_version", .num fv), ("last_version", .num lv),
          ("manifest", .str m)] => some ⟨fe, le, fv, lv, m⟩
  | _ => none

def encStateSnapshotMeta (s : StateSnapshotBackupMeta) : JVal :=
  .obj [("epoch", .num s.epoch), ("version", .num s.version),
        ("manifest", .str s.manifest)]

def decStateSnapshotMeta : JVal → Option StateSnapshotBackupMeta
  | .obj [("epoch", .num e), ("version", .num v), ("manifest", .str m)] =>
    some ⟨e, v, m⟩
  | _ => none

def encTransactionMeta (t : TransactionBackupMeta) : JVal :=
  .obj [("first_version", .num t.first_version),
        ("last_version", .num t.last_version), ("manifest", .str t.manifest)]

def decTransactionMeta : JVal → Option TransactionBackupMeta
  | .obj [("first_version", .num fv), ("last_version", .num lv),
          ("manifest", .str m)] => some ⟨fv, lv, m⟩
  | _ => none

def encEpochEndingRange (r : EpochEndingBackupMetaRange) : JVal :=
  .obj [("first_epoch", .num r.first_epoch), ("last_epoch", .num r.last_epoch),
        ("first_version", .num r.first_version), ("last_version", .num r.last_version),
        ("backup_metas", .arr (r.backup_metas.map encEpochEndingMeta))]

def decEpochEndingRange : JVal → Option EpochEndingBackupMetaRange
  | .obj [("first_epoch", .num fe), ("last_epoch", .num le),
          ("first_version", .num fv), ("last_version", .num lv),
          ("backup_metas", .arr l)] =>
    match l.mapM decEpochEndingMeta with
    | some ms => some ⟨fe, le, fv, lv, ms⟩
    | none => none
  | _ => none

def encStateSnapshotRange (r : StateSnapshotBackupMetaRange) : JVal :=
  .obj [("first_epoch", .num r.first_epoch), ("last_epoch", .num r.last_epoch),
        ("first_version", .num r.first_version), ("last_version", .num r.last_version),
        ("backup_metas", .arr (r.backup_metas.map encStateSnapshotMeta))]

def decStateSnapshotRange : JVal → Option StateSnapshotBackupMetaRange
  | .obj [("first_epoch", .num fe), ("last_epoch", .num le),
          ("first_version", .num fv), ("last_version", .num lv),
          ("backup_metas", .arr l)] =>
    match l.mapM decStateSnapshotMeta with
    | some ms => some ⟨fe, le, fv, lv, ms⟩
    | none => none
  | _ => none

def encTransactionRange (r : TransactionBackupMetaRange) : JVal :=
  .obj [("first_version", .num r.first_version),
        ("last_version", .num r.last_version),
        ("backup_metas", .arr (r.backup_metas.map encTransactionMeta))]

def decTransactionRange : JVal → Option TransactionBackupMetaRange
  | .obj [("first_version", .num fv), ("last_version", .num lv),
          ("backup_metas", .arr l)] =>
    match l.mapM decTransactionMeta with
    | some ms => some ⟨fv, lv, ms⟩
    | none => none
  | _ => none

def encIdentityMeta (i : IdentityMeta) : JVal := .obj [("id", .num i.id)]

def decIdentityMeta : JVal → Option IdentityMeta
  | .obj [("id", .num n)] => some ⟨n⟩
  | _ => none

/-- Modelled from the spec: `Metadata::to_text_line`, the externally
tagged single-line encoding of a record - one object keyed by the
variant tag, holding all the fields of the variant. -/
def Metadata.to_text_line : Metadata → JVal
  | .EpochEndingBackup e => .obj [("EpochEndingBackup", encEpochEndingMeta e)]
  | .EpochEndingBackupRange r => .obj [("EpochEndingBackupRange", encEpochEndingRange r)]
  | .StateSnapshotBackup s => .obj [("StateSnapshotBackup", encStateSnapshotMeta s)]
  | .StateSnapshotBackupRange r => .obj [("StateSnapshotBackupRange", encStateSnapshotRange r)]
  | .TransactionBackup t => .obj [("TransactionBackup", encTransactionMeta t)]
  | .TransactionBackupRange r => .obj [("TransactionBackupRange", encTransactionRange r)]
  | .Identity i => .obj [("Identity", encIdentityMeta i)]

/-- Modelled from the spec: the decoder used by the listing cache on a persisted
line back into a `Metadata` value (it lives outside these sources),
dispatching on the variant tag. -/
def decode_text_line : JVal → Option Metadata
  | .obj [("EpochEndingBackup", v)] =>
    match decEpochEndingMeta v with
    | some e => some (.EpochEndingBackup e)
    | none => none
  | .obj [("EpochEndingBackupRange", v)] =>
    match decEpochEndingRange v with
    | some r => some (.EpochEndingBackupRange r)
    | none => none
  | .obj [("StateSnapshotBackup", v)] =>
    match decStateSnapshotMeta v with
    | some s => some (.StateSnapshotBackup s)
    | none => none
  | .obj [("StateSnapshotBackupRange", v)] =>
    match decStateSnapshotRange v with
    | some r => some (.StateSnapshotBackupRange r)
    | none => none
  | .obj [("TransactionBackup", v)] =>
    match decTransactionMeta v with
    | some t => some (.TransactionBackup t)
    | none => none
  | .obj [("TransactionBackupRange", v)] =>
    match decTransactionRange v with
    | some r => some (.TransactionBackupRange r)
    | none => none
  | .obj [("Identity", v)] =>
    match decIdentityMeta v with
    | some i => some (.Identity i)
    | none => none
  | _ => none

theorem lastOf_concat {α : Type} (l : List α) :
    ∀ (x a : α), lastOf x (l ++ [a]) = a := by
  induction l with
  | nil => intro x a; rfl
  | cons b t ih => intro x a; exact ih b a

/-- Running the epoch-ending member loop over a continuous prefix advances
the carried state to the last member of the prefix. -/
theorem epochEndingLoop_skip (pre : List EpochEndingBackupMeta) :
    ∀ (x : EpochEndingBackupMeta) (suf : List EpochEndingBackupMeta),
      List.Chain' epochContinuous (x :: pre) →
      epochEndingLoop (x.last_epoch + 1) x.last_version (pre ++ suf) =
        epochEndingLoop ((lastOf x pre).last_epoch + 1) (lastOf x pre).last_version suf := by
  induction pre with
  | nil => intro x suf _; rfl
  | cons p pre2 ih =>
    intro x suf hchain
    rw [List.chain'_cons] at hchain
    obtain ⟨hxp, hrest⟩ := hchain
    have hxp2 : x.last_epoch + 1 = p.first_epoch := hxp
    show epochEndingLoop (x.last_epoch + 1) x.last_version (p :: (pre2 ++ suf)) = _
    simp only [epochEndingLoop]
    rw [if_pos hxp2]
    exact ih p suf hrest

/-- Running the snapshot member loop over a lockstep-continuous prefix
advances the carried state to the last member of the prefix. -/
theorem stateSnapshotLoop_skip (pre : List StateSnapshotBackupMeta) :
    ∀ (x : StateSnapshotBackupMeta) (suf : List StateSnapshotBackupMeta),
      List.Chain' snapshotContinuous (x :: pre) →
      stateSnapshotLoop (x.epoch + 1) (x.version + 1) (pre ++ suf) =
        stateSnapshotLoop ((lastOf x pre).epoch + 1) ((lastOf x pre).version + 1) suf := by
  induction pre with
  | nil => intro x suf _; rfl
  | cons p pre2 ih =>
    intro x suf hchain
    rw [List.chain'_cons] at hchain
    obtain ⟨hxp, hrest⟩ := hchain
    have hxe : x.epoch + 1 = p.epoch := hxp.1
    have hxv : x.version + 1 = p.version := hxp.2
    show stateSnapshotLoop (x.epoch + 1) (x.version + 1) (p :: (pre2 ++ suf)) = _
    simp only [stateSnapshotLoop]
    rw [if_pos hxe, if_pos hxv]
    exact ih p suf hrest

/-- Running the transaction member loop over a continuous prefix advances
the carried state to the last member of the prefix. -/
theorem transactionLoop_skip (pre : List TransactionBackupMeta) :
    ∀ (x : TransactionBackupMeta) (suf : List TransactionBackupMeta),
      List.Chain' txnContinuous (x :: pre) →
      transactionLoop (x.last_version + 1) (pre ++ suf) =
        transactionLoop ((lastOf x pre).last_version + 1) suf := by
  induction pre with
  | nil => intro x suf _; rfl
  | cons p pre2 ih =>
    intro x suf hchain
    rw [List.chain'_cons] at hchain
    obtain ⟨hxp, hrest⟩ := hchain
    have hxp2 : x.last_version + 1 = p.first_version := hxp
    show transactionLoop (x.last_version + 1) (p :: (pre2 ++ suf)) = _
    simp only [transactionLoop]
    rw [if_pos hxp2]
    exact ih p suf hrest

/-- C1: for every non-empty sequence of same-kind leaf records whose
adjacent pairs satisfy the continuity condition of the kind, each compaction
operation succeeds and returns a range record whose first bounds equal the
starting bounds of the first member, whose last bounds equal the ending
bounds of the last member, and whose backup_metas field is exactly the input sequence,
order preserved. -/
theorem compaction_success_bounds_and_members
    (e0 : EpochEndingBackupMeta) (erest : List EpochEndingBackupMeta)
    (s0 : StateSnapshotBackupMeta) (srest : List StateSnapshotBackupMeta)
    (t0 : TransactionBackupMeta) (trest : List TransactionBackupMeta)
    (he : List.Chain' epochContinuous (e0 :: erest))
    (hs : List.Chain' snapshotContinuous (s0 :: srest))
    (ht : List.Chain' txnContinuous (t0 :: trest)) :
    Metadata.new_epoch_ending_backup_range (e0 :: erest) =
      .ok (.EpochEndingBackupRange
        { first_epoch := e0.first_epoch
          last_epoch := (lastOf e0 erest).last_epoch
          first_version := e0.first_version
          last_version := (lastOf e0 erest).last_version
          backup_metas := e0 :: erest }) ∧
    Metadata.new_statesnapshot_backup_range (s0 :: srest) =
      .ok (.StateSnapshotBackupRange
        { first_epoch := s0.epoch
          last_epoch := (lastOf s0 srest).epoch
          first_version := s0.version
          last_version := (lastOf s0 srest).version
          backup_metas := s0 :: srest }) ∧
    Metadata.new_transaction_backup_range (t0 :: trest) =
      .ok (.TransactionBackupRange
        { first_version := t0.first_version
          last_version := (lastOf t0 trest).last_version
          backup_metas := t0 :: trest }) := by
  refine ⟨?_, ?_, ?_⟩
  · have h := epochEndingLoop_skip erest e0 [] he
    rw [List.append_nil] at h
    simp only [epochEndingLoop] at h
    simp only [Metadata.new_epoch_ending_backup_range, h, Nat.add_sub_cancel]
  · have h := stateSnapshotLoop_skip srest s0 [] hs
    rw [List.append_nil] at h
    simp only [stateSnapshotLoop] at h
    simp only [Metadata.new_statesnapshot_backup_range, h, Nat.add_sub_cancel]
  · have h := transactionLoop_skip trest t0 [] ht
    rw [List.append_nil] at h
    simp only [transactionLoop] at h
    simp only [Metadata.new_transaction_backup_range, h, Nat.add_sub_cancel]

/-- Witness for C1 at concrete two-member inputs of each kind. -/
theorem compaction_success_bounds_and_members_witness :
    Metadata.new_epoch_ending_backup_range
        [⟨0, 4, 0, 99, "ea"⟩, ⟨5, 9, 100, 199, "eb"⟩] =
      .ok (.EpochEndingBackupRange
        ⟨0, 9, 0, 199, [⟨0, 4, 0, 99, "ea"⟩, ⟨5, 9, 100, 199, "eb"⟩]⟩) ∧
    Metadata.new_statesnapshot_backup_range
        [⟨10, 1000, "sa"⟩, ⟨11, 1001, "sb"⟩] =
      .ok (.StateSnapshotBackupRange
        ⟨10, 11, 1000, 1001, [⟨10, 1000, "sa"⟩, ⟨11, 1001, "sb"⟩]⟩) ∧
    Metadata.new_transaction_backup_range
        [⟨0, 99, "ta"⟩, ⟨100, 149, "tb"⟩] =
      .ok (.TransactionBackupRange
        ⟨0, 149, [⟨0, 99, "ta"⟩, ⟨100, 149, "tb"⟩]⟩) :=
  compaction_success_bounds_and_members
    ⟨0, 4, 0, 99, "ea"⟩ [⟨5, 9, 100, 199, "eb"⟩]
    ⟨10, 1000, "sa"⟩ [⟨11, 1001, "sb"⟩]
    ⟨0, 99, "ta"⟩ [⟨100, 149, "tb"⟩]
    (List.chain'_cons.mpr ⟨rfl, List.chain'_singleton _⟩)
    (List.chain'_cons.mpr ⟨⟨rfl, rfl⟩, List.chain'_singleton _⟩)
    (List.chain'_cons.mpr ⟨rfl, List.chain'_singleton _⟩)

/-- C2: epoch-ending compaction with at least two members fails at the
first (leftmost) adjacent pair violating last_epoch + 1 = first_epoch,
with an error naming the expected epoch and the actual first_epoch found,
for gaps and overlaps alike; no range record is returned. -/
theorem epoch_ending_first_discontinuity_reported
    (pre suf : List EpochEndingBackupMeta) (a b : EpochEndingBackupMeta)
    (hchain : List.Chain' epochContinuous (pre ++ [a]))
    (hviol : a.last_epoch + 1 ≠ b.first_epoch) :
    Metadata.new_epoch_ending_backup_range (pre ++ a :: b :: suf) =
      .error (.notContinuous epochEndingDiscontMsg (a.last_epoch + 1) b.first_epoch) := by
  cases pre with
  | nil =>
    show Metadata.new_epoch_ending_backup_range (a :: b :: suf) = _
    simp only [Metadata.new_epoch_ending_backup_range, epochEndingLoop]
    rw [if_neg hviol]
  | cons p pre2 =>
    show Metadata.new_epoch_ending_backup_range (p :: (pre2 ++ a :: b :: suf)) = _
    have hchain2 : List.Chain' epochContinuous (p :: (pre2 ++ [a])) := hchain
    have hskip := epochEndingLoop_skip (pre2 ++ [a]) p (b :: suf) hchain2
    rw [lastOf_concat, List.append_assoc] at hskip
    simp only [List.singleton_append] at hskip
    simp only [Metadata.new_epoch_ending_backup_range, hskip, epochEndingLoop]
    rw [if_neg hviol]

/-- Witness for C2: a gap (expected 5, got 6) at the first pair. -/
theorem epoch_ending_first_discontinuity_reported_witness :
    Metadata.new_epoch_ending_backup_range
        [⟨0, 4, 0, 99, "ea"⟩, ⟨6, 9, 100, 199, "ec"⟩] =
      .error (.notContinuous epochEndingDiscontMsg 5 6) :=
  epoch_ending_first_discontinuity_reported [] []
    ⟨0, 4, 0, 99, "ea"⟩ ⟨6, 9, 100, 199, "ec"⟩
    (List.chain'_singleton _) (by decide)

/-- C3: snapshot compaction requires lockstep advance of epoch and
version; past a fully continuous prefix, an epoch discontinuity at the
next pair is reported with the expected and actual epoch, and a version
discontinuity with continuous epochs is reported with the expected and
actual version — when both axes are violated the epoch error is the one
reported, since epoch continuity is checked first. -/
theorem snapshot_axis_discontinuity_reported
    (pre suf : List StateSnapshotBackupMeta) (a b : StateSnapshotBackupMeta)
    (hchain : List.Chain' snapshotContinuous (pre ++ [a])) :
    (a.epoch + 1 ≠ b.epoch →
      Metadata.new_statesnapshot_backup_range (pre ++ a :: b :: suf) =
        .error (.notContinuous snapshotEpochDiscontMsg (a.epoch + 1) b.epoch)) ∧
    (a.epoch + 1 = b.epoch → a.version + 1 ≠ b.version →
      Metadata.new_statesnapshot_backup_range (pre ++ a :: b :: suf) =
        .error (.notContinuous snapshotVersionDiscontMsg (a.version + 1) b.version)) := by
  cases pre with
  | nil =>
    constructor
    · intro hviol
      show Metadata.new_statesnapshot_backup_range (a :: b :: suf) = _
      simp only [Metadata.new_statesnapshot_backup_range, stateSnapshotLoop]
      rw [if_neg hviol]
    · intro heq hviol
      show Metadata.new_statesnapshot_backup_range (a :: b :: suf) = _
      simp only [Metadata.new_statesnapshot_backup_range, stateSnapshotLoop]
      rw [if_pos heq, if_neg hviol]
  | cons p pre2 =>
    have hchain2 : List.Chain' snapshotContinuous (p :: (pre2 ++ [a])) := hchain
    have hskip := stateSnapshotLoop_skip (pre2 ++ [a]) p (b :: suf) hchain2
    rw [lastOf_concat, List.append_assoc] at hskip
    simp only [List.singleton_append] at hskip
    constructor
    · intro hviol
      show Metadata.new_statesnapshot_backup_range (p :: (pre2 ++ a :: b :: suf)) = _
      simp only [Metadata.new_statesnapshot_backup_range, hskip, stateSnapshotLoop]
      rw [if_neg hviol]
    · intro heq hviol
      show Metadata.new_statesnapshot_backup_range (p :: (pre2 ++ a :: b :: suf)) = _
      simp only [Metadata.new_statesnapshot_backup_range, hskip, stateSnapshotLoop]
      rw [if_pos heq, if_neg hviol]

/-- Witness for C3: an epoch skip is reported on the epoch axis, and a
version skip with continuous epochs is reported on the version axis. -/
theorem snapshot_axis_discontinuity_reported_witness :
    Metadata.new_statesnapshot_backup_range
        [⟨10, 1000, "sa"⟩, ⟨12, 1001, "sx"⟩] =
      .error (.notContinuous snapshotEpochDiscontMsg 11 12) ∧
    Metadata.new_statesnapshot_backup_range
        [⟨10, 1000, "sa"⟩, ⟨11, 1002, "sc"⟩] =
      .error (.notContinuous snapshotVersionDiscontMsg 1001 1002) :=
  ⟨(snapshot_axis_discontinuity_reported [] [] ⟨10, 1000, "sa"⟩ ⟨12, 1001, "sx"⟩
      (List.chain'_singleton _)).1 (by decide),
   (snapshot_axis_discontinuity_reported [] [] ⟨10, 1000, "sa"⟩ ⟨11, 1002, "sc"⟩
      (List.chain'_singleton _)).2 rfl (by decide)⟩

/-- C5: epoch-ending compaction checks only epoch continuity — any
non-empty sequence whose adjacent pairs chain on epochs succeeds whatever
the version fields of the members hold, and the first_version of the
resulting range is the first_version of the first member and its
last_version the last_version of the last member. -/
theorem epoch_ending_compaction_ignores_versions
    (e0 : EpochEndingBackupMeta) (erest : List EpochEndingBackupMeta)
    (he : List.Chain' epochContinuous (e0 :: erest)) :
    Metadata.new_epoch_ending_backup_range (e0 :: erest) =
      .ok (.EpochEndingBackupRange
        { first_epoch := e0.first_epoch
          last_epoch := (lastOf e0 erest).last_epoch
          first_version := e0.first_version
          last_version := (lastOf e0 erest).last_version
          backup_metas := e0 :: erest }) := by
  have h := epochEndingLoop_skip erest e0 [] he
  rw [List.append_nil] at h
  simp only [epochEndingLoop] at h
  simp only [Metadata.new_epoch_ending_backup_range, h, Nat.add_sub_cancel]

/-- Witness for C5: the two members chain on epochs but their version
spans overlap and even run backwards; compaction still succeeds. -/
theorem epoch_ending_compaction_ignores_versions_witness :
    Metadata.new_epoch_ending_backup_range
        [⟨0, 4, 100, 99, "ea"⟩, ⟨5, 9, 50, 60, "eb"⟩] =
      .ok (.EpochEndingBackupRange
        ⟨0, 9, 100, 60, [⟨0, 4, 100, 99, "ea"⟩, ⟨5, 9, 50, 60, "eb"⟩]⟩) :=
  epoch_ending_compaction_ignores_versions
    ⟨0, 4, 100, 99, "ea"⟩ [⟨5, 9, 50, 60, "eb"⟩]
    (List.chain'_cons.mpr ⟨rfl, List.chain'_singleton _⟩)

/-- C4: compacting an empty sequence fails for each of the three kinds
with the empty-set rejection error, and no range record is returned. -/
theorem empty_compaction_rejected :
    Metadata.new_epoch_ending_backup_range [] = .error (.emptyInput emptyMsg) ∧
    Metadata.new_statesnapshot_backup_range [] = .error (.emptyInput emptyMsg) ∧
    Metadata.new_transaction_backup_range [] = .error (.emptyInput emptyMsg) :=
  ⟨rfl, rfl, rfl⟩

/-- C10: neither the leaf constructor nor single-element compaction
validates the internal bound ordering of a record: with first bound strictly
above last bound, the transaction leaf constructor succeeds, and the
single-element range compaction succeeds with the inverted bounds copied
into the range record; likewise for the epoch-ending kind. -/
theorem no_internal_bound_ordering_validation
    (f l fv lv : Nat) (m : FileHandle) (h : f > l) :
    Metadata.new_transaction_backup f l m = .TransactionBackup ⟨f, l, m⟩ ∧
    Metadata.new_transaction_backup_range [⟨f, l, m⟩] =
      .ok (.TransactionBackupRange ⟨f, l, [⟨f, l, m⟩]⟩) ∧
    Metadata.new_epoch_ending_backup f l fv lv m =
      .EpochEndingBackup ⟨f, l, fv, lv, m⟩ ∧
    Metadata.new_epoch_ending_backup_range [⟨f, l, fv, lv, m⟩] =
      .ok (.EpochEndingBackupRange ⟨f, l, fv, lv, [⟨f, l, fv, lv, m⟩]⟩) := by
  refine ⟨rfl, ?_, rfl, ?_⟩
  · simp only [Metadata.new_transaction_backup_range, transactionLoop, Nat.add_sub_cancel]
  · simp only [Metadata.new_epoch_ending_backup_range, epochEndingLoop, Nat.add_sub_cancel]

/-- Witness for C10 at first bound 5, last bound 3. -/
theorem no_internal_bound_ordering_validation_witness :
    Metadata.new_transaction_backup 5 3 "m" = .TransactionBackup ⟨5, 3, "m"⟩ ∧
    Metadata.new_transaction_backup_range [⟨5, 3, "m"⟩] =
      .ok (.TransactionBackupRange ⟨5, 3, [⟨5, 3, "m"⟩]⟩) ∧
    Metadata.new_epoch_ending_backup 5 3 7 2 "m" =
      .EpochEndingBackup ⟨5, 3, 7, 2, "m"⟩ ∧
    Metadata.new_epoch_ending_backup_range [⟨5, 3, 7, 2, "m"⟩] =
      .ok (.EpochEndingBackupRange ⟨5, 3, 7, 2, [⟨5, 3, 7, 2, "m"⟩]⟩) :=
  no_internal_bound_ordering_validation 5 3 7 2 "m" (by decide)

theorem checkedAdd1_max : checkedAdd1 (2 ^ 64 - 1) = none := by
  unfold checkedAdd1
  rw [if_neg]
  decide

theorem checkedAdd1_of_lt {n : Nat} (h : n + 1 < 2 ^ 64) :
    checkedAdd1 n = some (n + 1) := by
  unfold checkedAdd1
  rw [if_pos h]

theorem checkedAdd1_of_ge {n : Nat} (h : ¬ n + 1 < 2 ^ 64) :
    checkedAdd1 n = none := by
  unfold checkedAdd1
  rw [if_neg h]

/-- Once the checked epoch-ending loop runs along a prefix that chains
continuously into a member whose last_epoch sits at the u64 maximum, it
fails hard: either some earlier advance already overflowed, or the loop
reaches that member and its own advance overflows. -/
theorem checkedEpochEndingLoop_overflow (pre : List EpochEndingBackupMeta) :
    ∀ (x : EpochEndingBackupMeta) (nv : Nat) (m : EpochEndingBackupMeta)
      (suf : List EpochEndingBackupMeta),
      List.Chain' epochContinuous (x :: (pre ++ [m])) →
      m.last_epoch = 2 ^ 64 - 1 →
      checkedEpochEndingLoop (x.last_epoch + 1) nv (pre ++ m :: suf) = none := by
  induction pre with
  | nil =>
    intro x nv m suf hchain hm
    rw [List.nil_append, List.chain'_cons] at hchain
    have hxm : x.last_epoch + 1 = m.first_epoch := hchain.1
    show checkedEpochEndingLoop (x.last_epoch + 1) nv (m :: suf) = none
    simp only [checkedEpochEndingLoop]
    rw [if_pos hxm, hm, checkedAdd1_max]
  | cons p pre2 ih =>
    intro x nv m suf hchain hm
    rw [List.cons_append, List.chain'_cons] at hchain
    have hxp : x.last_epoch + 1 = p.first_epoch := hchain.1
    show checkedEpochEndingLoop (x.last_epoch + 1) nv (p :: (pre2 ++ m :: suf)) = none
    simp only [checkedEpochEndingLoop]
    rw [if_pos hxp]
    by_cases hove : p.last_epoch + 1 < 2 ^ 64
    · simp only [checkedAdd1_of_lt hove]
      exact ih p p.last_version m suf hchain.2 hm
    · simp only [checkedAdd1_of_ge hove]

/-- Snapshot analogue of checkedEpochEndingLoop_overflow, on either
coordinate axis of the member at the u64 maximum. -/
theorem checkedStateSnapshotLoop_overflow (pre : List StateSnapshotBackupMeta) :
    ∀ (x m : StateSnapshotBackupMeta) (suf : List StateSnapshotBackupMeta),
      List.Chain' snapshotContinuous (x :: (pre ++ [m])) →
      m.epoch = 2 ^ 64 - 1 ∨ m.version = 2 ^ 64 - 1 →
      checkedStateSnapshotLoop (x.epoch + 1) (x.version + 1) (pre ++ m :: suf) = none := by
  induction pre with
  | nil =>
    intro x m suf hchain hm
    rw [List.nil_append, List.chain'_cons] at hchain
    have hxe : x.epoch + 1 = m.epoch := hchain.1.1
    have hxv : x.version + 1 = m.version := hchain.1.2
    show checkedStateSnapshotLoop (x.epoch + 1) (x.version + 1) (m :: suf) = none
    rcases hm with hme | hmv
    · simp only [checkedStateSnapshotLoop]
      rw [if_pos hxe, hme, checkedAdd1_max]
    · have hxv2 : x.version + 1 = 2 ^ 64 - 1 := hmv ▸ hxv
      by_cases hove : m.epoch + 1 < 2 ^ 64
      · simp only [checkedStateSnapshotLoop, if_pos hxe, checkedAdd1_of_lt hove,
          hmv, if_pos hxv2, checkedAdd1_max]
      · simp only [checkedStateSnapshotLoop, if_pos hxe, checkedAdd1_of_ge hove]
  | cons p pre2 ih =>
    intro x m suf hchain hm
    rw [List.cons_append, List.chain'_cons] at hchain
    have hxe : x.epoch + 1 = p.epoch := hchain.1.1
    have hxv : x.version + 1 = p.version := hchain.1.2
    show checkedStateSnapshotLoop (x.epoch + 1) (x.version + 1)
      (p :: (pre2 ++ m :: suf)) = none
    by_cases hove : p.epoch + 1 < 2 ^ 64
    · by_cases hovv : p.version + 1 < 2 ^ 64
      · simp only [checkedStateSnapshotLoop, if_pos hxe, checkedAdd1_of_lt hove,
          if_pos hxv, checkedAdd1_of_lt hovv]
        exact ih p m suf hchain.2 hm
      · simp only [checkedStateSnapshotLoop, if_pos hxe, checkedAdd1_of_lt hove,
          if_pos hxv, checkedAdd1_of_ge hovv]
    · simp only [checkedStateSnapshotLoop, if_pos hxe, checkedAdd1_of_ge hove]

/-- Transaction analogue of checkedEpochEndingLoop_overflow. -/
theorem checkedTransactionLoop_overflow (pre : List TransactionBackupMeta) :
    ∀ (x m : TransactionBackupMeta) (suf : List TransactionBackupMeta),
      List.Chain' txnContinuous (x :: (pre ++ [m])) →
      m.last_version = 2 ^ 64 - 1 →
      checkedTransactionLoop (x.last_version + 1) (pre ++ m :: suf) = none := by
  induction pre with
  | nil =>
    intro x m suf hchain hm
    rw [List.nil_append, List.chain'_cons] at hchain
    have hxm : x.last_version + 1 = m.first_version := hchain.1
    show checkedTransactionLoop (x.last_version + 1) (m :: suf) = none
    simp only [checkedTransactionLoop]
    rw [if_pos hxm, hm, checkedAdd1_max]
  | cons p pre2 ih =>
    intro x m suf hchain hm
    rw [List.cons_append, List.chain'_cons] at hchain
    have hxp : x.last_version + 1 = p.first_version := hchain.1
    show checkedTransactionLoop (x.last_version + 1) (p :: (pre2 ++ m :: suf)) = none
    simp only [checkedTransactionLoop]
    rw [if_pos hxp]
    by_cases hove : p.last_version + 1 < 2 ^ 64
    · simp only [checkedAdd1_of_lt hove]
      exact ih p m suf hchain.2 hm
    · simp only [checkedAdd1_of_ge hove]

/-- C6: whenever a compaction operation computes a "next expected" chain
value `previous + 1` whose field sits at the u64 maximum 2^64 - 1 - that
is, the member carrying the maximal field is reached through a prefix
that satisfies the continuity checks, wherever it sits in the input -
the operation under checked u64 arithmetic fails hard, producing no
result at all rather than wrapping around to 0 and producing a range
record. -/
theorem overflow_of_next_expected_fails_hard
    (epre esuf : List EpochEndingBackupMeta) (em : EpochEndingBackupMeta)
    (spre ssuf : List StateSnapshotBackupMeta) (sm : StateSnapshotBackupMeta)
    (tpre tsuf : List TransactionBackupMeta) (tm : TransactionBackupMeta)
    (hechain : List.Chain' epochContinuous (epre ++ [em]))
    (hem : em.last_epoch = 2 ^ 64 - 1)
    (hschain : List.Chain' snapshotContinuous (spre ++ [sm]))
    (hsm : sm.epoch = 2 ^ 64 - 1 ∨ sm.version = 2 ^ 64 - 1)
    (htchain : List.Chain' txnContinuous (tpre ++ [tm]))
    (htm : tm.last_version = 2 ^ 64 - 1) :
    checked_new_epoch_ending_backup_range (epre ++ em :: esuf) = none ∧
    checked_new_statesnapshot_backup_range (spre ++ sm :: ssuf) = none ∧
    checked_new_transaction_backup_range (tpre ++ tm :: tsuf) = none := by
  refine ⟨?_, ?_, ?_⟩
  · cases epre with
    | nil =>
      show checked_new_epoch_ending_backup_range (em :: esuf) = none
      simp only [checked_new_epoch_ending_backup_range, hem, checkedAdd1_max]
    | cons x pre2 =>
      show checked_new_epoch_ending_backup_range (x :: (pre2 ++ em :: esuf)) = none
      have hchain2 : List.Chain' epochContinuous (x :: (pre2 ++ [em])) := hechain
      by_cases hove : x.last_epoch + 1 < 2 ^ 64
      · simp only [checked_new_epoch_ending_backup_range, checkedAdd1_of_lt hove,
          checkedEpochEndingLoop_overflow pre2 x x.last_version em esuf hchain2 hem]
      · simp only [checked_new_epoch_ending_backup_range, checkedAdd1_of_ge hove]
  · cases spre with
    | nil =>
      show checked_new_statesnapshot_backup_range (sm :: ssuf) = none
      rcases hsm with hse | hsv
      · simp only [checked_new_statesnapshot_backup_range, hse, checkedAdd1_max]
      · by_cases hove : sm.epoch + 1 < 2 ^ 64
        · simp only [checked_new_statesnapshot_backup_range, checkedAdd1_of_lt hove,
            hsv, checkedAdd1_max]
        · simp only [checked_new_statesnapshot_backup_range, checkedAdd1_of_ge hove]
    | cons x pre2 =>
      show checked_new_statesnapshot_backup_range (x :: (pre2 ++ sm :: ssuf)) = none
      have hchain2 : List.Chain' snapshotContinuous (x :: (pre2 ++ [sm])) := hschain
      by_cases hove : x.epoch + 1 < 2 ^ 64
      · by_cases hovv : x.version + 1 < 2 ^ 64
        · simp only [checked_new_statesnapshot_backup_range, checkedAdd1_of_lt hove,
            checkedAdd1_of_lt hovv,
            checkedStateSnapshotLoop_overflow pre2 x sm ssuf hchain2 hsm]
        · simp only [checked_new_statesnapshot_backup_range, checkedAdd1_of_lt hove,
            checkedAdd1_of_ge hovv]
      · simp only [checked_new_statesnapshot_backup_range, checkedAdd1_of_ge hove]
  · cases tpre with
    | nil =>
      show checked_new_transaction_backup_range (tm :: tsuf) = none
      simp only [checked_new_transaction_backup_range, htm, checkedAdd1_max]
    | cons x pre2 =>
      show checked_new_transaction_backup_range (x :: (pre2 ++ tm :: tsuf)) = none
      have hchain2 : List.Chain' txnContinuous (x :: (pre2 ++ [tm])) := htchain
      by_cases hove : x.last_version + 1 < 2 ^ 64
      · simp only [checked_new_transaction_backup_range, checkedAdd1_of_lt hove,
          checkedTransactionLoop_overflow pre2 x tm tsuf hchain2 htm]
      · simp only [checked_new_transaction_backup_range, checkedAdd1_of_ge hove]

/-- Witness for C6 where the member holding the 2^64 - 1 field is the
second member of each input, reached by the loop through a continuous
first pair. -/
theorem overflow_of_next_expected_fails_hard_witness :
    checked_new_epoch_ending_backup_range
        [⟨0, 5, 0, 10, "e1"⟩, ⟨6, 2 ^ 64 - 1, 11, 20, "e2"⟩] = none ∧
    checked_new_statesnapshot_backup_range
        [⟨10, 2 ^ 64 - 2, "s1"⟩, ⟨11, 2 ^ 64 - 1, "s2"⟩] = none ∧
    checked_new_transaction_backup_range
        [⟨0, 5, "t1"⟩, ⟨6, 2 ^ 64 - 1, "t2"⟩] = none :=
  overflow_of_next_expected_fails_hard
    [⟨0, 5, 0, 10, "e1"⟩] [] ⟨6, 2 ^ 64 - 1, 11, 20, "e2"⟩
    [⟨10, 2 ^ 64 - 2, "s1"⟩] [] ⟨11, 2 ^ 64 - 1, "s2"⟩
    [⟨0, 5, "t1"⟩] [] ⟨6, 2 ^ 64 - 1, "t2"⟩
    (List.chain'_cons.mpr ⟨rfl, List.chain'_singleton _⟩) rfl
    (List.chain'_cons.mpr ⟨⟨rfl, by decide⟩, List.chain'_singleton _⟩) (Or.inr rfl)
    (List.chain'_cons.mpr ⟨rfl, List.chain'_singleton _⟩) rfl

theorem string_data_append (s t : String) : (s ++ t).data = s.data ++ t.data := by
  cases s
  cases t
  rfl

theorem decDigit_safe (d : Nat) : shellSafeChar (decDigit d) = true := by
  unfold decDigit
  rcases d with _ | _ | _ | _ | _ | _ | _ | _ | _ | d <;> rfl

theorem natToDecCore_safe (fuel : Nat) :
    ∀ (n : Nat) (acc : List Char), acc.all shellSafeChar = true →
      (natToDecCore fuel n acc).all shellSafeChar = true := by
  induction fuel with
  | zero => intro n acc hacc; exact hacc
  | succ fuel ih =>
    intro n acc hacc
    have hacc2 : (decDigit (n % 10) :: acc).all shellSafeChar = true := by
      rw [List.all_cons, decDigit_safe, hacc]
      rfl
    by_cases hn : n < 10
    · simp only [natToDecCore, if_pos hn]
      exact hacc2
    · simp only [natToDecCore, if_neg hn]
      exact ih (n / 10) _ hacc2

theorem natToDec_safe (n : Nat) : (natToDec n).data.all shellSafeChar = true :=
  natToDecCore_safe (n + 1) n [] rfl

theorem natToDecCore_length (fuel : Nat) :
    ∀ (n : Nat) (acc : List Char), acc.length ≤ (natToDecCore fuel n acc).length := by
  induction fuel with
  | zero => intro n acc; exact Nat.le_refl _
  | succ fuel ih =>
    intro n acc
    by_cases hn : n < 10
    · simp only [natToDecCore, if_pos hn, List.length_cons]
      omega
    · simp only [natToDecCore, if_neg hn]
      have h := ih (n / 10) (decDigit (n % 10) :: acc)
      simp only [List.length_cons] at h
      omega

theorem natToDec_not_empty (n : Nat) : (natToDec n).data.isEmpty = false := by
  show (natToDecCore (n + 1) n []).isEmpty = false
  by_cases hn : n < 10
  · simp only [natToDecCore, if_pos hn]
    rfl
  · simp only [natToDecCore, if_neg hn]
    have h := natToDecCore_length n (n / 10) (decDigit (n % 10) :: [])
    simp only [List.length_cons, List.length_nil] at h
    cases hc : natToDecCore n (n / 10) (decDigit (n % 10) :: []) with
    | nil => rw [hc] at h; simp at h
    | cons c cs => rfl

theorem shellSafe_append (s t : String) (hs : shellSafe s = true)
    (ht : t.data.all shellSafeChar = true) : shellSafe (s ++ t) = true := by
  unfold shellSafe at hs ⊢
  rw [string_data_append]
  rw [Bool.and_eq_true] at hs
  obtain ⟨hne, hall⟩ := hs
  rw [Bool.and_eq_true]
  constructor
  · cases h : s.data with
    | nil => rw [h] at hne; simp [List.isEmpty] at hne
    | cons c cs => rfl
  · rw [List.all_append, hall, ht]
    rfl

theorem shellSafe_natToDec (n : Nat) : shellSafe (natToDec n) = true := by
  unfold shellSafe
  rw [natToDec_not_empty, natToDec_safe]
  rfl

/-- C8: `name` deterministically produces the fixed kind-specific
templates with decimal coordinate substitutions, so records of the same
kind with identical coordinates but different manifest handles (or, for
ranges, different member sequences) produce identical names. -/
theorem naming_is_coordinate_keyed :
    (∀ (fe le fv lv : Nat) (m1 m2 : FileHandle),
      Metadata.name (.EpochEndingBackup ⟨fe, le, fv, lv, m1⟩) =
        "epoch_ending_" ++ natToDec fe ++ "-" ++ natToDec le ++ ".meta" ∧
      Metadata.name (.EpochEndingBackup ⟨fe, le, fv, lv, m1⟩) =
        Metadata.name (.EpochEndingBackup ⟨fe, le, fv, lv, m2⟩)) ∧
    (∀ (ep v : Nat) (m1 m2 : FileHandle),
      Metadata.name (.StateSnapshotBackup ⟨ep, v, m1⟩) =
        "state_snapshot_ver_" ++ natToDec v ++ ".meta" ∧
      Metadata.name (.StateSnapshotBackup ⟨ep, v, m1⟩) =
        Metadata.name (.StateSnapshotBackup ⟨ep, v, m2⟩)) ∧
    (∀ (fv lv : Nat) (m1 m2 : FileHandle),
      Metadata.name (.TransactionBackup ⟨fv, lv, m1⟩) =
        "transaction_" ++ natToDec fv ++ "-" ++ natToDec lv ++ ".meta" ∧
      Metadata.name (.TransactionBackup ⟨fv, lv, m1⟩) =
        Metadata.name (.TransactionBackup ⟨fv, lv, m2⟩)) ∧
    (∀ (fe le fv lv : Nat) (b1 b2 : List EpochEndingBackupMeta),
      Metadata.name (.EpochEndingBackupRange ⟨fe, le, fv, lv, b1⟩) =
        "epoch_ending_compacted_" ++ natToDec fe ++ "-" ++ natToDec le ++ ".meta" ∧
      Metadata.name (.EpochEndingBackupRange ⟨fe, le, fv, lv, b1⟩) =
        Metadata.name (.EpochEndingBackupRange ⟨fe, le, fv, lv, b2⟩)) ∧
    (∀ (fe le fv lv : Nat) (b1 b2 : List StateSnapshotBackupMeta),
      Metadata.name (.StateSnapshotBackupRange ⟨fe, le, fv, lv, b1⟩) =
        "state_snapshot_compacted_ver_" ++ natToDec fv ++ "-" ++ natToDec lv ++ ".meta" ∧
      Metadata.name (.StateSnapshotBackupRange ⟨fe, le, fv, lv, b1⟩) =
        Metadata.name (.StateSnapshotBackupRange ⟨fe, le, fv, lv, b2⟩)) ∧
    (∀ (fv lv : Nat) (b1 b2 : List TransactionBackupMeta),
      Metadata.name (.TransactionBackupRange ⟨fv, lv, b1⟩) =
        "transaction_compacted_" ++ natToDec fv ++ "-" ++ natToDec lv ++ ".meta" ∧
      Metadata.name (.TransactionBackupRange ⟨fv, lv, b1⟩) =
        Metadata.name (.TransactionBackupRange ⟨fv, lv, b2⟩)) ∧
    (∀ i : HashValue, Metadata.name (.Identity ⟨i⟩) = "identity.meta") ∧
    Metadata.name (.StateSnapshotBackup ⟨1, 1000, "m"⟩) = "state_snapshot_ver_1000.meta" :=
  ⟨fun _ _ _ _ _ _ => ⟨rfl, rfl⟩, fun _ _ _ _ => ⟨rfl, rfl⟩,
   fun _ _ _ _ => ⟨rfl, rfl⟩, fun _ _ _ _ _ _ => ⟨rfl, rfl⟩,
   fun _ _ _ _ _ _ => ⟨rfl, rfl⟩, fun _ _ _ _ => ⟨rfl, rfl⟩,
   fun _ => rfl, rfl⟩

/-- C9: every name produced by the templates passes the shell-safe-name
validator, so the fatal conversion-failure branch inside `name` is
unreachable: the checked conversion always returns the generated name. -/
theorem name_generation_never_fails (m : Metadata) :
    Metadata.name_checked m = some (Metadata.name m) := by
  have hsafe : shellSafe (Metadata.name m) = true := by
    cases m with
    | EpochEndingBackup e =>
      exact shellSafe_append _ _
        (shellSafe_append _ _
          (shellSafe_append _ _
            (shellSafe_append _ _ (by decide) (natToDec_safe _)) (by decide))
          (natToDec_safe _)) (by decide)
    | StateSnapshotBackup s =>
      exact shellSafe_append _ _
        (shellSafe_append _ _ (by decide) (natToDec_safe _)) (by decide)
    | TransactionBackup t =>
      exact shellSafe_append _ _
        (shellSafe_append _ _
          (shellSafe_append _ _
            (shellSafe_append _ _ (by decide) (natToDec_safe _)) (by decide))
          (natToDec_safe _)) (by decide)
    | EpochEndingBackupRange e =>
      exact shellSafe_append _ _
        (shellSafe_append _ _
          (shellSafe_append _ _
            (shellSafe_append _ _ (by decide) (natToDec_safe _)) (by decide))
          (natToDec_safe _)) (by decide)
    | StateSnapshotBackupRange e =>
      exact shellSafe_append _ _
        (shellSafe_append _ _
          (shellSafe_append _ _
            (shellSafe_append _ _ (by decide) (natToDec_safe _)) (by decide))
          (natToDec_safe _)) (by decide)
    | TransactionBackupRange e =>
      exact shellSafe_append _ _
        (shellSafe_append _ _
          (shellSafe_append _ _
            (shellSafe_append _ _ (by decide) (natToDec_safe _)) (by decide))
          (natToDec_safe _)) (by decide)
    | Identity i =>
      show shellSafe "identity.meta" = true
      decide
  unfold Metadata.name_checked
  rw [if_pos hsafe]

theorem dec_enc_epoch_meta (a : EpochEndingBackupMeta) :
    decEpochEndingMeta (encEpochEndingMeta a) = some a := rfl

theorem dec_enc_snapshot_meta (a : StateSnapshotBackupMeta) :
    decStateSnapshotMeta (encStateSnapshotMeta a) = some a := rfl

theorem dec_enc_txn_meta (a : TransactionBackupMeta) :
    decTransactionMeta (encTransactionMeta a) = some a := rfl

theorem mapM_dec_enc_epoch (l : List EpochEndingBackupMeta) :
    (l.map encEpochEndingMeta).mapM decEpochEndingMeta = some l := by
  induction l with
  | nil => rfl
  | cons a t ih =>
    rw [List.map_cons, List.mapM_cons, dec_enc_epoch_meta, ih]
    rfl

theorem mapM_dec_enc_snapshot (l : List StateSnapshotBackupMeta) :
    (l.map encStateSnapshotMeta).mapM decStateSnapshotMeta = some l := by
  induction l with
  | nil => rfl
  | cons a t ih =>
    rw [List.map_cons, List.mapM_cons, dec_enc_snapshot_meta, ih]
    rfl

theorem mapM_dec_enc_txn (l : List TransactionBackupMeta) :
    (l.map encTransactionMeta).mapM decTransactionMeta = some l := by
  induction l with
  | nil => rfl
  | cons a t ih =>
    rw [List.map_cons, List.mapM_cons, dec_enc_txn_meta, ih]
    rfl

theorem dec_enc_epoch_range (r : EpochEndingBackupMetaRange) :
    decEpochEndingRange (encEpochEndingRange r) = some r := by
  simp only [encEpochEndingRange, decEpochEndingRange, mapM_dec_enc_epoch]

theorem dec_enc_snapshot_range (r : StateSnapshotBackupMetaRange) :
    decStateSnapshotRange (encStateSnapshotRange r) = some r := by
  simp only [encStateSnapshotRange, decStateSnapshotRange, mapM_dec_enc_snapshot]

theorem dec_enc_txn_range (r : TransactionBackupMetaRange) :
    decTransactionRange (encTransactionRange r) = some r := by
  simp only [encTransactionRange, decTransactionRange, mapM_dec_enc_txn]

/-- C7: the tagged single-line encoding is lossless - for every
constructible record, decoding the serialized form of the record yields
a value structurally equal to the original, variant tag and all fields
preserved. -/
theorem text_line_roundtrip (m : Metadata) :
    decode_text_line (Metadata.to_text_line m) = some m := by
  cases m with
  | EpochEndingBackup e =>
    simp only [Metadata.to_text_line, decode_text_line, dec_enc_epoch_meta]
  | EpochEndingBackupRange r =>
    simp only [Metadata.to_text_line, decode_text_line, dec_enc_epoch_range]
  | StateSnapshotBackup s =>
    simp only [Metadata.to_text_line, decode_text_line, dec_enc_snapshot_meta]
  | StateSnapshotBackupRange r =>
    simp only [Metadata.to_text_line, decode_text_line, dec_enc_snapshot_range]
  | TransactionBackup t =>
    simp only [Metadata.to_text_line, decode_text_line, dec_enc_txn_meta]
  | TransactionBackupRange r =>
    simp only [Metadata.to_text_line, decode_text_line, dec_enc_txn_range]
  | Identity i =>
    simp only [Metadata.to_text_line, decode_text_line, encIdentityMeta, decIdentityMeta]
